import Mathlib

/-!
Verification of the gspay-go-sdk request executor.

Shallow embedding of the request-execution engine of the
`gspay-go-sdk` repository (Go), together with proofs about the
embedded definitions.

Embedded components (file / function of the source they are
transcribed from):

* backoff calculator — `src/client/request.go`, `waitBackoff` and
  `parseRetryAfter`;
* response classifier — `src/client/request.go`, `processResponse`;
* retry loop — `src/client/request.go`, `executeWithRetry`;
* envelope `data` parser — `src/client/request.go`, `ParseData`;
* signature-payload construction — `src/payment/idr.go`
  (`VerifySignature`, `formatAmount`) and the payout service
  (`verifyCallbackSignature`);
* callback source-IP verification — `src/client/client.go`
  (`parseIPWhitelist`, `IsIPWhitelisted`, `VerifyCallbackIP`).

Modelling conventions:

* Go `time.Duration` values are `Int` nanoseconds; Go `int64`
  arithmetic that can wrap is made explicit with `i64wrap`.
* Byte strings are `List Char` (the SDK only ever handles textual
  JSON bodies).
* The ambient Go standard library (`encoding/json`) is modelled by an
  executable compact-form JSON renderer and parser over the value
  type `Jval`, proved inverse to each other; `json.Unmarshal` into a
  caller-chosen target type is modelled by an abstract `Codec`.
* Randomness (`rand.Int64N`) is a function argument `jitterDraw`, so
  every statement quantifies over the draw.
-/

namespace GSPay

/-! ## Decimal digits and integer parsing helpers -/

/-- Digit character for a digit value (values `≥ 10` never arise). -/
def digitChar (d : Nat) : Char :=
  match d with
  | 0 => '0' | 1 => '1' | 2 => '2' | 3 => '3' | 4 => '4'
  | 5 => '5' | 6 => '6' | 7 => '7' | 8 => '8' | _ => '9'

/-- Is the character an ASCII decimal digit? -/
def isDigitChar (c : Char) : Bool :=
  48 ≤ c.toNat && c.toNat ≤ 57

/-- Numeric value of an ASCII digit character. -/
def digitVal (c : Char) : Nat := c.toNat - 48

/-- Little-endian base-10 digits, by fuel-indexed structural recursion
(kernel-reducible, unlike `Nat.digits`); `fuel ≥ n` suffices. -/
def natDigitsRev : Nat → Nat → List Nat
  | 0, _ => []
  | fuel + 1, n => if n = 0 then [] else n % 10 :: natDigitsRev fuel (n / 10)

/-- Render a natural number in decimal, most significant digit first. -/
def renderNat (n : Nat) : List Char :=
  if n = 0 then ['0'] else ((natDigitsRev n n).reverse).map digitChar

/-- Accumulating decimal scanner: consumes leading digits, returns the
accumulated value and the unconsumed remainder. -/
def scanDigits (acc : Nat) : List Char → Nat × List Char
  | [] => (acc, [])
  | c :: rest =>
    if isDigitChar c then scanDigits (acc * 10 + digitVal c) rest
    else (acc, c :: rest)

/-- All-digit check used to model `strconv` parsers that require the
whole input to be numeric. -/
def allDigits (cs : List Char) : Bool := cs.all isDigitChar

/-- Model of `strconv.ParseInt(value, 10, 64)` restricted to its
success/failure behaviour: optional sign, at least one digit, nothing
else, and the value must fit in a signed 64-bit integer. -/
def goParseInt (cs : List Char) : Option Int :=
  match cs with
  | [] => none
  | '-' :: rest =>
    if rest ≠ [] ∧ allDigits rest then
      let v := (scanDigits 0 rest).1
      if v ≤ 2 ^ 63 then some (-(v : Int)) else none
    else none
  | '+' :: rest =>
    if rest ≠ [] ∧ allDigits rest then
      let v := (scanDigits 0 rest).1
      if v ≤ 2 ^ 63 - 1 then some (v : Int) else none
    else none
  | _ =>
    if allDigits cs then
      let v := (scanDigits 0 cs).1
      if v ≤ 2 ^ 63 - 1 then some (v : Int) else none
    else none

/-! ## 64-bit wrap-around arithmetic (Go `int64` / `time.Duration`) -/

/-- Wrap an integer into the signed 64-bit range, as Go's `int64`
arithmetic does on overflow. -/
def i64wrap (x : Int) : Int :=
  (x + 2 ^ 63) % 2 ^ 64 - 2 ^ 63

/-- Go expression `1 << n` at type `int64` (`time.Duration`): shifts
past the width drop out, bit 63 lands on the sign. -/
def goShl1 (n : Nat) : Int := i64wrap (2 ^ n)

/-- Go integer division truncates toward zero (`Int.tdiv`). -/
def goQuot (a b : Int) : Int := a.tdiv b

/-! ## Backoff calculator: `parseRetryAfter` and `waitBackoff` -/

/-- Outcome space of the `Retry-After` header string as seen by
`parseRetryAfter`: either a raw string (which may or may not parse as
an integer second count — RFC 1123 date strings never do), or a string
that parses as an HTTP-date, carried as the absolute timestamp in
nanoseconds that `time.Parse` produced. -/
inductive RetryAfterValue : Type
  | raw (s : List Char)
  | httpDate (t : Int)
deriving DecidableEq, Repr

/-- `parseRetryAfter` from `src/client/request.go`: empty or
unparseable values give `0`; a positive integer is a second count;
an HTTP-date yields `time.Until(t)` when positive, else `0`.
`now` is the current clock reading in nanoseconds. -/
def parseRetryAfter (now : Int) (value : RetryAfterValue) : Int :=
  match value with
  | .raw s =>
    if s = [] then 0
    else
      match goParseInt s with
      | some seconds => if seconds > 0 then seconds * 1000000000 else 0
      | none => 0
  | .httpDate t =>
    let duration := t - now
    if duration > 0 then duration else 0

/-- The wait duration computed by `waitBackoff` in
`src/client/request.go` before the `select` on the timer.  `attempt`
is the loop's attempt index (always `≥ 1` at the call site),
`jitterDraw m` models `rand.Int64N(m)` (a value in `[0, m)`). -/
def computeWait (retryWaitMin retryWaitMax : Int) (attempt : Nat)
    (suggestedWait : Int) (jitterDraw : Int → Int) : Int :=
  if suggestedWait > 0 then
    min suggestedWait retryWaitMax
  else
    let baseWait := min (i64wrap (retryWaitMin * goShl1 (attempt - 1))) retryWaitMax
    let jitterMax := goQuot baseWait 4
    let jitter := if jitterMax > 0 then jitterDraw jitterMax else 0
    i64wrap (baseWait + jitter)

/-- `time.After` fires immediately on a non-positive duration: the
wait that is actually experienced before the next attempt. -/
def effectiveWait (w : Int) : Int := max w 0

/-! ## JSON values: model of the `encoding/json` wire format

The SDK hands all JSON work to Go's `encoding/json`.  We model the
JSON documents it exchanges by the value type `Jval`, a compact-form
renderer `render` (what `json.Marshal` produces, minus HTML escaping)
and an executable parser `parseJson`, proved to be a left inverse of
the renderer.  String escaping covers `"` and `\`, the two characters
that actually occur when the gateway double-encodes a payload as a
JSON-encoded string. -/

inductive Jval : Type
  | jnull
  | jbool (b : Bool)
  | jnum (n : Int)
  | jstr (s : List Char)
  | jarr (elems : List Jval)
  | jobj (fields : List (List Char × Jval))

/-- Escape a string body for inclusion between quotes. -/
def escapeChars : List Char → List Char
  | [] => []
  | c :: rest =>
    if c = '"' ∨ c = '\\' then '\\' :: c :: escapeChars rest
    else c :: escapeChars rest

mutual

/-- Compact rendering of a JSON value. -/
def render : Jval → List Char
  | .jnull => ['n', 'u', 'l', 'l']
  | .jbool true => ['t', 'r', 'u', 'e']
  | .jbool false => ['f', 'a', 'l', 's', 'e']
  | .jnum n => if n < 0 then '-' :: renderNat n.natAbs else renderNat n.toNat
  | .jstr s => '"' :: (escapeChars s ++ ['"'])
  | .jarr [] => ['[', ']']
  | .jarr (v :: l) => '[' :: (renderElems v l ++ [']'])
  | .jobj [] => ['{', '}']
  | .jobj (f :: l) => '{' :: (renderFields f l ++ ['}'])
  termination_by v => sizeOf v
  decreasing_by all_goals (simp_wf; try omega)

/-- Comma-separated rendering of a non-empty array body. -/
def renderElems : Jval → List Jval → List Char
  | v, [] => render v
  | v, w :: l => render v ++ ',' :: renderElems w l
  termination_by v l => sizeOf v + sizeOf l
  decreasing_by all_goals (simp_wf; try omega)

/-- Comma-separated rendering of a non-empty object body, each member
being `"key":value`. -/
def renderFields : List Char × Jval → List (List Char × Jval) → List Char
  | (k, v), [] => '"' :: (escapeChars k ++ '"' :: ':' :: render v)
  | (k, v), g :: l =>
    ('"' :: (escapeChars k ++ '"' :: ':' :: render v)) ++ ',' :: renderFields g l
  termination_by f l => sizeOf f + sizeOf l
  decreasing_by all_goals (simp_wf; try omega)

end

/-- Parse a string-literal body up to (and consuming) the closing
quote; the opening quote has already been consumed. -/
def parseStrChars : List Char → Option (List Char × List Char)
  | [] => none
  | c :: rest =>
    if c = '"' then some ([], rest)
    else if c = '\\' then
      match rest with
      | [] => none
      | e :: rest2 =>
        if e = '"' ∨ e = '\\' then
          match parseStrChars rest2 with
          | some (s, r) => some (e :: s, r)
          | none => none
        else none
    else
      match parseStrChars rest with
      | some (s, r) => some (c :: s, r)
      | none => none

/-- Does the input start with a decimal digit? -/
def headIsDigit (cs : List Char) : Bool :=
  match cs with
  | c :: _ => isDigitChar c
  | [] => false

/-- Parse a JSON number (optional minus, then digits). -/
def parseNumIn (cs : List Char) : Option (Jval × List Char) :=
  match cs with
  | [] => none
  | c :: rest =>
    if c = '-' then
      if headIsDigit rest then
        let p := scanDigits 0 rest
        some (.jnum (-(p.1 : Int)), p.2)
      else none
    else if isDigitChar c then
      let p := scanDigits 0 (c :: rest)
      some (.jnum ((p.1 : Nat) : Int), p.2)
    else none

/-- Expect a literal character sequence at the head of the input,
returning the remainder past it. -/
def dropLit (lit : List Char) (cs : List Char) : Option (List Char) :=
  match lit, cs with
  | [], cs => some cs
  | _ :: _, [] => none
  | c :: l, d :: cs => if c = d then dropLit l cs else none

mutual

/-- Fuel-indexed parser for one JSON value; returns the value and the
unconsumed remainder. -/
def parseVal (fuel : Nat) (cs : List Char) : Option (Jval × List Char) :=
  match fuel with
  | 0 => none
  | fuel + 1 =>
    match cs with
    | [] => none
    | c :: rest =>
      if c = 'n' then
        (dropLit ['u', 'l', 'l'] rest).map (fun r => (.jnull, r))
      else if c = 't' then
        (dropLit ['r', 'u', 'e'] rest).map (fun r => (.jbool true, r))
      else if c = 'f' then
        (dropLit ['a', 'l', 's', 'e'] rest).map (fun r => (.jbool false, r))
      else if c = '"' then
        (parseStrChars rest).map (fun p => (.jstr p.1, p.2))
      else if c = '[' then
        if rest.head? = some ']' then some (.jarr [], rest.tail)
        else
          match parseElems fuel rest with
          | some (l, r) => some (.jarr l, r)
          | none => none
      else if c = '{' then
        if rest.head? = some '}' then some (.jobj [], rest.tail)
        else
          match parseFields fuel rest with
          | some (l, r) => some (.jobj l, r)
          | none => none
      else parseNumIn (c :: rest)

/-- Fuel-indexed parser for a non-empty array body, consuming the
closing bracket. -/
def parseElems (fuel : Nat) (cs : List Char) :
    Option (List Jval × List Char) :=
  match fuel with
  | 0 => none
  | fuel + 1 =>
    match parseVal fuel cs with
    | some (v, r) =>
      match r with
      | ',' :: r2 =>
        match parseElems fuel r2 with
        | some (l, r3) => some (v :: l, r3)
        | none => none
      | ']' :: r2 => some ([v], r2)
      | _ => none
    | none => none

/-- Fuel-indexed parser for a non-empty object body, consuming the
closing brace. -/
def parseFields (fuel : Nat) (cs : List Char) :
    Option (List (List Char × Jval) × List Char) :=
  match fuel with
  | 0 => none
  | fuel + 1 =>
    match cs with
    | [] => none
    | c :: rest =>
      if c = '"' then
        match parseStrChars rest with
        | some (k, r) =>
          match r with
          | ':' :: r2 =>
            match parseVal fuel r2 with
            | some (v, r3) =>
              match r3 with
              | ',' :: r4 =>
                match parseFields fuel r4 with
                | some (l, r5) => some ((k, v) :: l, r5)
                | none => none
              | '}' :: r4 => some ([(k, v)], r4)
              | _ => none
            | none => none
          | _ => none
        | none => none
      else none

end

mutual

/-- Fuel sufficient for `parseVal` to traverse a value. -/
def jweight : Jval → Nat
  | .jarr (v :: l) => jweightElems v l + 1
  | .jobj (f :: l) => jweightFields f l + 1
  | _ => 1
  termination_by v => sizeOf v
  decreasing_by all_goals (simp_wf; try omega)

/-- Fuel sufficient for `parseElems` over a non-empty array body. -/
def jweightElems : Jval → List Jval → Nat
  | v, [] => jweight v + 1
  | v, w :: l => max (jweight v) (jweightElems w l) + 1
  termination_by v l => sizeOf v + sizeOf l
  decreasing_by all_goals (simp_wf; try omega)

/-- Fuel sufficient for `parseFields` over a non-empty object body. -/
def jweightFields : List Char × Jval → List (List Char × Jval) → Nat
  | (k, v), [] => jweight v + 1
  | (k, v), g :: l => max (jweight v) (jweightFields g l) + 1
  termination_by f l => sizeOf f + sizeOf l
  decreasing_by all_goals (simp_wf; try omega)

end

/-- Model of parsing a whole JSON document (`json.Unmarshal`'s
syntactic layer): the document must be consumed entirely. -/
def parseJson (bytes : List Char) : Option Jval :=
  match parseVal (bytes.length + 1) bytes with
  | some (v, []) => some v
  | _ => none

/-- The input does not begin with a digit (so a digit scan stops). -/
def notDigitStart : List Char → Prop
  | [] => True
  | c :: _ => isDigitChar c = false

/-- The remainder after a rendered value, inside a rendered document,
always starts with a separator or closer (or is empty). -/
def isDelim : List Char → Prop
  | [] => True
  | c :: _ => c = ',' ∨ c = ']' ∨ c = '}'

/-! ## Models of `json.Unmarshal` into the SDK's target types -/

/-- Abstract model of a Go target type `T` for `encoding/json`:
`enc` is how `json.Marshal` represents a `T`, `dec` is how
`json.Unmarshal` maps an already-parsed JSON value into a `T`
(`none` = decode error). -/
structure Codec (T : Type) where
  enc : T → Jval
  dec : Jval → Option T

/-- `json.Unmarshal(bytes, &x)` for `x : T`. -/
def unmarshalAs {T : Type} (C : Codec T) (bytes : List Char) : Option T :=
  match parseJson bytes with
  | some j => C.dec j
  | none => none

/-- `json.Unmarshal(bytes, &s)` for a Go `string` target: succeeds on
a JSON string (yielding its contents) and on `null` (which leaves the
zero value `""`). -/
def unmarshalString (bytes : List Char) : Option (List Char) :=
  match parseJson bytes with
  | some (.jstr s) => some s
  | some .jnull => some []
  | _ => none

/-- Decode every element of a JSON array as a `T`; any element
failure fails the whole decode, as `json.Unmarshal` into a slice does. -/
def decodeList {T : Type} (C : Codec T) : List Jval → Option (List T)
  | [] => some []
  | j :: rest =>
    match C.dec j, decodeList C rest with
    | some t, some ts => some (t :: ts)
    | _, _ => none

/-- Decode every element of a JSON array as a Go `string` (`null`
elements keep the zero value). -/
def decodeStrList : List Jval → Option (List (List Char))
  | [] => some []
  | j :: rest =>
    let hd : Option (List Char) :=
      match j with
      | .jstr s => some s
      | .jnull => some []
      | _ => none
    match hd, decodeStrList rest with
    | some s, some ss => some (s :: ss)
    | _, _ => none

/-- `json.Unmarshal(bytes, &arr)` for `arr : []T`: a JSON array whose
every element decodes as `T`, or `null` (nil slice). -/
def unmarshalArr {T : Type} (C : Codec T) (bytes : List Char) :
    Option (List T) :=
  match parseJson bytes with
  | some (.jarr l) => decodeList C l
  | some .jnull => some []
  | _ => none

/-- `json.Unmarshal(bytes, &arr)` for `arr : []string`. -/
def unmarshalStrArr (bytes : List Char) : Option (List (List Char)) :=
  match parseJson bytes with
  | some (.jarr l) => decodeStrList l
  | some .jnull => some []
  | _ => none

/-- `ParseData[T]` from `src/client/request.go`: layered decoding of
the raw bytes of the envelope's `data` field.  `.error ()` stands for
the `errors.ErrInvalidJSON` return; `.ok none` is the `nil, nil`
return on empty input. -/
def ParseData {T : Type} (C : Codec T) (data : List Char) :
    Except Unit (Option T) :=
  if data.length = 0 then .ok none
  else
    let data1 :=
      match unmarshalString data with
      | some s => s
      | none => data
    match unmarshalArr C data1 with
    | some (t :: _) => .ok (some t)
    | _ =>
      match unmarshalStrArr data1 with
      | some (s :: _) =>
        match unmarshalAs C s with
        | some t => .ok (some t)
        | none =>
          match unmarshalAs C data1 with
          | some t => .ok (some t)
          | none => .error ()
      | _ =>
        match unmarshalAs C data1 with
        | some t => .ok (some t)
        | none => .error ()

/-! ## Envelope decoding and `processResponse` -/

/-- The wire envelope struct `Response` of `src/client/request.go`
(`Code int`, `Message string`, `Data json.RawMessage`); `dataField`
is `none` when the member is absent. -/
structure Response where
  code : Int
  message : List Char
  dataField : Option Jval

/-- Last occurrence of a key in a decoded object (later duplicate
members overwrite earlier ones, as in `encoding/json`). -/
def lookupLast (key : List Char) : List (List Char × Jval) → Option Jval
  | [] => none
  | (k, v) :: rest =>
    match lookupLast key rest with
    | some r => some r
    | none => if k = key then some v else none

/-- `json.Unmarshal(bytes, &apiResp)` for the envelope struct: the
document must be an object (or `null`); absent members keep their zero
values; `code` must be a JSON number, `message` a JSON string (or
null).  Key matching is modelled as exact-case (the gateway sends
lower-case keys, as the SDK's struct tags expect). -/
def decodeResponse (bytes : List Char) : Option Response :=
  match parseJson bytes with
  | some (.jobj fields) =>
    let codeOk :=
      match lookupLast ['c', 'o', 'd', 'e'] fields with
      | none => some (0 : Int)
      | some (.jnum n) => some n
      | some .jnull => some 0
      | some _ => none
    let msgOk :=
      match lookupLast ['m', 'e', 's', 's', 'a', 'g', 'e'] fields with
      | none => some ([] : List Char)
      | some (.jstr s) => some s
      | some .jnull => some []
      | some _ => none
    match codeOk, msgOk with
    | some c, some m =>
      some ⟨c, m, lookupLast ['d', 'a', 't', 'a'] fields⟩
    | _, _ => none
  | some .jnull => some ⟨0, [], none⟩
  | _ => none

/-- Error classification carried by a `responseResult`
(`src/client/request.go`).  Each constructor stands for the sentinel
or structured error the code builds at that point. -/
inductive ErrKind : Type
  | requestFailed
  | rateLimited
  | apiError (code : Int)
  | emptyResponse
  | invalidJSON
deriving DecidableEq, Repr

/-- `responseResult` from `src/client/request.go`. -/
structure RespResult where
  response : Option Response
  retry : Bool
  retryAfter : Int
  err : Option ErrKind

/-- `processResponse` from `src/client/request.go`, for a response
whose body was drained successfully: classify by HTTP status, then
decode the envelope.  `now` feeds the `Retry-After` parse,
`retryAfterHdr` is the value of the `Retry-After` header. -/
def processResponse (now : Int) (status : Nat)
    (retryAfterHdr : RetryAfterValue) (body : List Char) : RespResult :=
  if status < 200 ∨ status ≥ 300 then
    let retry := decide (status ≥ 500) || decide (status = 404) ||
      decide (status = 429)
    if status = 429 then
      { response := none, retry := retry,
        retryAfter := parseRetryAfter now retryAfterHdr,
        err := some .rateLimited }
    else
      { response := none, retry := retry, retryAfter := 0,
        err := some (.apiError (status : Int)) }
  else if body.length = 0 then
    { response := none, retry := true, retryAfter := 0,
      err := some .emptyResponse }
  else
    match decodeResponse body with
    | none =>
      { response := none, retry := false, retryAfter := 0,
        err := some .invalidJSON }
    | some resp =>
      if resp.code ≠ 200 then
        { response := none, retry := false, retryAfter := 0,
          err := some (.apiError resp.code) }
      else
        { response := some resp, retry := false, retryAfter := 0,
          err := none }

/-! ## The retry loop `executeWithRetry` -/

/-- Result of `executeWithRetry`: on success, the number of attempts
actually made and the response; on failure, the `actualAttempts`
value wrapped into the final error (the loop index of the last
attempt) and the last classified error. -/
inductive ExecResult : Type
  | success (attempts : Nat) (resp : Option Response)
  | failure (wrappedCount : Nat) (lastErr : ErrKind)

/-- One turn of the `for attempt := 0; attempt <= c.Retries` loop of
`executeWithRetry`.  `outcomes n` is the classified result of attempt
number `n` (`performRequest`); `budget` is the number of retries still
allowed, i.e. `c.Retries - attempt`, so `attempt < c.Retries` is
`budget > 0`.  The backoff sleep between attempts does not influence
the control flow (cancellation is out of scope) and is modelled
separately by `computeWait`. -/
def execLoop (outcomes : Nat → RespResult) :
    (budget : Nat) → (attempt : Nat) → ExecResult
  | budget, attempt =>
    let r := outcomes attempt
    match r.err with
    | none => .success (attempt + 1) r.response
    | some e =>
      match budget with
      | 0 => .failure attempt e
      | b + 1 =>
        if r.retry then execLoop outcomes b (attempt + 1)
        else .failure attempt e

/-- `executeWithRetry` from `src/client/request.go`, as a function of
the per-attempt classified outcomes. -/
def executeWithRetry (outcomes : Nat → RespResult) (retries : Nat) :
    ExecResult :=
  execLoop outcomes retries 0

/-- Total number of attempts performed in a run. -/
def attemptsUsed : ExecResult → Nat
  | .success n _ => n
  | .failure a _ => a + 1

/-- Did the run return a response (no error)? -/
def ExecResult.isOk : ExecResult → Bool
  | .success _ _ => true
  | .failure _ _ => false

/-! ## Amount normalization and signature payloads

`formatAmount` in `src/payment/idr.go` (and its inline copy in the
payout service) is `strconv.ParseFloat(s, 64)` followed by
`fmt.Sprintf("%.2f", f)`.  The model parses the plain decimal forms
(optional sign, digits, optional fraction — the forms the gateway
sends) exactly and rounds half-to-even to two decimals; for such
amounts of payment-scale magnitude the `float64` round trip is exact,
so this agrees with the Go code. -/

/-- Value of a digit string read left to right. -/
def digitsVal (ds : List Char) : Nat :=
  ds.foldl (fun a c => a * 10 + digitVal c) 0

/-- Exact parse of a decimal literal: sign, numerator and scale, with
value `(-1)^neg * n / 10^scale`. -/
def parseDecimal (cs : List Char) : Option (Bool × Nat × Nat) :=
  let sgn : Bool × List Char :=
    match cs with
    | '-' :: t => (true, t)
    | '+' :: t => (false, t)
    | _ => (false, cs)
  let d1 := sgn.2.takeWhile isDigitChar
  let r1 := sgn.2.dropWhile isDigitChar
  match r1 with
  | [] => if d1 = [] then none else some (sgn.1, digitsVal d1, 0)
  | '.' :: r2 =>
    let d2 := r2.takeWhile isDigitChar
    let r3 := r2.dropWhile isDigitChar
    if r3 = [] ∧ d1 ++ d2 ≠ [] then
      some (sgn.1, digitsVal (d1 ++ d2), d2.length)
    else none
  | _ => none

/-- Round `n / 10^scale` to two decimals (result is the value times
100), rounding half to even as `%.2f` does. -/
def round2 (n : Nat) (scale : Nat) : Nat :=
  if scale ≤ 2 then n * 10 ^ (2 - scale)
  else
    let d := 10 ^ (scale - 2)
    let q := n / d
    let r := n % d
    if 2 * r > d then q + 1
    else if 2 * r < d then q
    else if q % 2 = 0 then q else q + 1

/-- Two-digit zero-padded fraction part. -/
def padTwo (m : Nat) : List Char :=
  if m < 10 then '0' :: renderNat m else renderNat m

/-- Lay out a hundredths count as a fixed-two-decimals string. -/
def formatTwoDecimal (neg : Bool) (q : Nat) : List Char :=
  (if neg then ['-'] else []) ++ renderNat (q / 100) ++ '.' :: padTwo (q % 100)

/-- `formatAmount` from `src/payment/idr.go`: re-parse the wire amount
and re-format it with exactly two decimal digits; `none` is the
`invalid amount format` validation error. -/
def formatAmount2dp (cs : List Char) : Option (List Char) :=
  match parseDecimal cs with
  | some (neg, n, scale) => some (formatTwoDecimal neg (round2 n scale))
  | none => none

/-- `fmt.Sprintf("%d", n)` for the status integer. -/
def renderInt (n : Int) : List Char :=
  if n < 0 then '-' :: renderNat n.natAbs else renderNat n.toNat

/-- Outcome of a callback-signature verification. -/
inductive VerifyResult : Type
  | missingField (which : List Char)
  | invalidAmount
  | invalidSignature
  | ok
deriving DecidableEq, Repr

/-- `VerifySignature` from `src/payment/idr.go` (used by both
`VerifyCallback` and `VerifyStatusSignature`): field checks, amount
normalization, then a digest over
`id ++ amount(2dp) ++ transactionID ++ status ++ secret`.
`gen` models `signature.Generate` (the MD5 hex digest);
`signature.Verify` is `subtle.ConstantTimeCompare(...) == 1`, i.e.
byte equality — the timing property itself is out of scope. -/
def paymentVerifySignature (gen : List Char → List Char)
    (secret : List Char) (id amount transactionID : List Char)
    (status : Int) (receivedSignature : List Char) : VerifyResult :=
  if id = [] then .missingField ['i', 'd']
  else if amount = [] then .missingField ['a', 'm', 'o', 'u', 'n', 't']
  else if transactionID = [] then
    .missingField ['t', 'r', 'a', 'n', 's', 'a', 'c', 't', 'i', 'o', 'n']
  else if receivedSignature = [] then
    .missingField ['s', 'i', 'g', 'n', 'a', 't', 'u', 'r', 'e']
  else
    match formatAmount2dp amount with
    | none => .invalidAmount
    | some formattedAmount =>
      let signatureData :=
        id ++ formattedAmount ++ transactionID ++ renderInt status ++ secret
      if gen signatureData = receivedSignature then .ok
      else .invalidSignature

/-- `verifyCallbackSignature` from the payout IDR service: field
checks, amount normalization, then a digest over
`payoutID ++ accountNumber ++ amount(2dp) ++ transactionID ++ secret`. -/
def payoutVerifyCallbackSignature (gen : List Char → List Char)
    (secret : List Char)
    (payoutID accountNumber amount transactionID receivedSignature : List Char) :
    VerifyResult :=
  if payoutID = [] then .missingField ['p', 'a', 'y', 'o', 'u', 't']
  else if accountNumber = [] then
    .missingField ['a', 'c', 'c', 'o', 'u', 'n', 't']
  else if amount = [] then .missingField ['a', 'm', 'o', 'u', 'n', 't']
  else if transactionID = [] then
    .missingField ['t', 'r', 'a', 'n', 's', 'a', 'c', 't', 'i', 'o', 'n']
  else if receivedSignature = [] then
    .missingField ['s', 'i', 'g', 'n', 'a', 't', 'u', 'r', 'e']
  else
    match formatAmount2dp amount with
    | none => .invalidAmount
    | some formattedAmount =>
      let signatureData :=
        payoutID ++ accountNumber ++ formattedAmount ++ transactionID ++ secret
      if gen signatureData = receivedSignature then .ok
      else .invalidSignature

/-! ## Callback source-IP verification (`src/client/client.go`)

`net.ParseIP` / `net.ParseCIDR` are modelled for IPv4 dotted-quad
addresses (the form the SDK documents and tests); an address is its
32-bit value. -/

/-- Model of `net.SplitHostPort` followed by the fallback to the raw
input on error: exactly one colon splits off a port, anything else
leaves the string unchanged. -/
def stripPort (s : List Char) : List Char :=
  match s.splitOn ':' with
  | [h, _] => h
  | _ => s

/-- One dotted-quad octet: one to three digits, no leading zero,
value at most 255 (as `net.ParseIP` requires). -/
def parseOctet (cs : List Char) : Option Nat :=
  match cs with
  | [] => none
  | c :: rest =>
    if allDigits (c :: rest) ∧ (c = '0' → rest = []) ∧
        (c :: rest).length ≤ 3 ∧ digitsVal (c :: rest) ≤ 255 then
      some (digitsVal (c :: rest))
    else none

/-- Model of `net.ParseIP` restricted to IPv4. -/
def parseIPv4 (cs : List Char) : Option Nat :=
  match cs.splitOn '.' with
  | [a, b, c, d] =>
    match parseOctet a, parseOctet b, parseOctet c, parseOctet d with
    | some x, some y, some z, some w =>
      some (((x * 256 + y) * 256 + z) * 256 + w)
    | _, _, _, _ => none
  | _ => none

/-- A parsed CIDR network: masked base address and prefix length. -/
structure IPNet where
  network : Nat
  maskBits : Nat
deriving DecidableEq, Repr

/-- Keep the top `bits` bits of a 32-bit address. -/
def maskApply (bits ip : Nat) : Nat :=
  (ip >>> (32 - bits)) <<< (32 - bits)

/-- Mask length of a CIDR suffix: decimal, no leading zero, `0..32`. -/
def parseMaskBits (cs : List Char) : Option Nat :=
  match cs with
  | [] => none
  | c :: rest =>
    if allDigits (c :: rest) ∧ (c = '0' → rest = []) ∧
        digitsVal (c :: rest) ≤ 32 then
      some (digitsVal (c :: rest))
    else none

/-- Model of `net.ParseCIDR` restricted to IPv4, returning the network
(`ip.Mask(mask)`) as `net.ParseCIDR` does. -/
def parseCIDRv4 (cs : List Char) : Option IPNet :=
  match cs.splitOn '/' with
  | [ipPart, maskPart] =>
    match parseIPv4 ipPart, parseMaskBits maskPart with
    | some ip, some bits => some ⟨maskApply bits ip, bits⟩
    | _, _ => none
  | _ => none

/-- `(*net.IPNet).Contains`: mask the candidate and compare. -/
def ipNetContains (net : IPNet) (ip : Nat) : Bool :=
  maskApply net.maskBits ip = net.network

/-- `parseIPWhitelist` from `src/client/client.go`: each entry is
tried as CIDR first, then as an individual IP; entries that parse as
neither are dropped.  (The Go loop appends to two slices; this builds
the same two lists in the same order.) -/
def parseIPWhitelist : List (List Char) → List IPNet × List Nat
  | [] => ([], [])
  | e :: rest =>
    let r := parseIPWhitelist rest
    match parseCIDRv4 e with
    | some n => (n :: r.1, r.2)
    | none =>
      match parseIPv4 e with
      | some ip => (r.1, ip :: r.2)
      | none => r

/-- `IsIPWhitelisted` from `src/client/client.go`.  `entries` is the
raw `CallbackIPWhitelist`; the parsed forms are recomputed here (the
Go code caches them at configuration time, with the same contents). -/
def IsIPWhitelisted (entries : List (List Char)) (ipStr : List Char) :
    Bool :=
  if entries = [] then true
  else
    let host := stripPort ipStr
    match parseIPv4 host with
    | none => false
    | some ip =>
      let parsed := parseIPWhitelist entries
      parsed.2.any (fun w => w = ip) || parsed.1.any (fun n => ipNetContains n ip)

/-- Outcome of `VerifyCallbackIP`: `nil`, `ErrInvalidIPAddress` or
`ErrIPNotWhitelisted`. -/
inductive IPVerifyResult : Type
  | ok
  | invalidIPAddress
  | ipNotWhitelisted
deriving DecidableEq, Repr

/-- `VerifyCallbackIP` from `src/client/client.go`. -/
def VerifyCallbackIP (entries : List (List Char)) (ipStr : List Char) :
    IPVerifyResult :=
  if entries = [] then .ok
  else
    let host := stripPort ipStr
    if (parseIPv4 host).isNone then .invalidIPAddress
    else if ¬IsIPWhitelisted entries ipStr then .ipNotWhitelisted
    else .ok

/-! ## Concrete instances used by the theorems below -/

/-- The wait performed before attempt `n` of `executeWithRetry`: the
initial attempt (`n = 0`) is made immediately; before retry `n ≥ 1`
the loop calls `waitBackoff` with the server-suggested wait taken from
the previous attempt's result (`suggestedWait` is reset each
iteration, so only the immediately preceding attempt's value is
live). -/
def waitBeforeAttempt (retryWaitMin retryWaitMax : Int)
    (jitterDraw : Int → Int) (outcomes : Nat → RespResult) (n : Nat) : Int :=
  if n = 0 then 0
  else computeWait retryWaitMin retryWaitMax n (outcomes (n - 1)).retryAfter
    jitterDraw

/-- A successful envelope body: the bytes of the compact document
whose object is `code = 200` and nothing else. -/
def body200 : List Char :=
  ['{', '"', 'c', 'o', 'd', 'e', '"', ':', '2', '0', '0', '}']

/-- Attempt outcomes of the spec's retry scenario: three consecutive
HTTP 500 responses, then an HTTP 200 carrying a decodable success
envelope — each classified by `processResponse`. -/
def scenario500 : Nat → RespResult := fun n =>
  if n < 3 then processResponse 0 500 (.raw []) []
  else processResponse 0 200 (.raw []) body200

/-- A sample target type for the envelope-data round trip: a natural
number marshalled as the object with single member `v`. -/
def natFieldCodec : Codec Nat where
  enc n := .jobj [(['v'], .jnum (n : Int))]
  dec j :=
    match j with
    | .jobj [(k, .jnum m)] =>
      if k = ['v'] ∧ 0 ≤ m then some m.toNat else none
    | _ => none

/-! ## The parser is a left inverse of the renderer -/

theorem natDigitsRev_eq_digits :
    ∀ fuel n, n ≤ fuel → natDigitsRev fuel n = Nat.digits 10 n := by
  intro fuel
  induction fuel with
  | zero =>
    intro n hn
    have : n = 0 := by omega
    subst this
    simp [natDigitsRev]
  | succ fuel ih =>
    intro n hn
    by_cases h0 : n = 0
    · subst h0
      simp [natDigitsRev]
    · have hlt : n / 10 < n := Nat.div_lt_self (by omega) (by norm_num)
      rw [natDigitsRev, if_neg h0,
        Nat.digits_def' (show (1 : Nat) < 10 by norm_num) (show 0 < n by omega),
        ih (n / 10) (by omega)]

/-- `renderNat` in terms of `Nat.digits`, for the round-trip proof. -/
theorem renderNat_eq (n : Nat) :
    renderNat n =
      if n = 0 then ['0'] else ((Nat.digits 10 n).reverse).map digitChar := by
  rw [renderNat, natDigitsRev_eq_digits n n (le_refl n)]


theorem isDigitChar_digitChar (d : Nat) : isDigitChar (digitChar d) = true := by
  unfold digitChar
  split <;> decide

theorem digitVal_digitChar {d : Nat} (h : d < 10) : digitVal (digitChar d) = d := by
  interval_cases d <;> decide

theorem renderNat_all_digits (n : Nat) :
    ∀ c ∈ renderNat n, isDigitChar c = true := by
  intro c hc
  rw [renderNat_eq] at hc
  by_cases h : n = 0
  · simp [h] at hc
    simp [hc]
    decide
  · simp [h] at hc
    obtain ⟨d, _, rfl⟩ := hc
    exact isDigitChar_digitChar d

theorem renderNat_ne_nil (n : Nat) : renderNat n ≠ [] := by
  rw [renderNat_eq]
  by_cases h : n = 0
  · simp [h]
  · simp [h, Nat.digits_ne_nil_iff_ne_zero]

theorem renderNat_cons (n : Nat) :
    ∃ c t, renderNat n = c :: t ∧ isDigitChar c = true := by
  rcases h : renderNat n with _ | ⟨c, t⟩
  · exact absurd h (renderNat_ne_nil n)
  · exact ⟨c, t, rfl, renderNat_all_digits n c (by rw [h]; exact List.mem_cons_self c t)⟩

theorem scanDigits_append (ds : List Char) :
    ∀ (acc : Nat) (rest : List Char), (∀ c ∈ ds, isDigitChar c = true) →
    notDigitStart rest →
    scanDigits acc (ds ++ rest) =
      (ds.foldl (fun a c => a * 10 + digitVal c) acc, rest) := by
  induction ds with
  | nil =>
    intro acc rest _ hr
    cases rest with
    | nil => simp [scanDigits]
    | cons c t =>
      simp only [notDigitStart] at hr
      simp [scanDigits, hr]
  | cons c ds ih =>
    intro acc rest hd hr
    have hc : isDigitChar c = true := hd c (List.mem_cons_self c ds)
    simp only [List.cons_append, scanDigits, hc, if_true, List.foldl_cons]
    exact ih (acc * 10 + digitVal c) rest (fun x hx => hd x (List.mem_cons_of_mem c hx)) hr

theorem foldr_eq_ofDigits (l : List Nat) :
    l.foldr (fun d a => a * 10 + d) 0 = Nat.ofDigits 10 l := by
  induction l with
  | nil => simp [Nat.ofDigits]
  | cons d l ih => simp [Nat.ofDigits_cons, ih]; omega

theorem foldl_map_digitChar (l : List Nat) (h : ∀ d ∈ l, d < 10) (acc : Nat) :
    (l.map digitChar).foldl (fun a c => a * 10 + digitVal c) acc =
      l.foldl (fun a d => a * 10 + d) acc := by
  induction l generalizing acc with
  | nil => rfl
  | cons d l ih =>
    simp only [List.map_cons, List.foldl_cons,
      digitVal_digitChar (h d (List.mem_cons_self d l))]
    exact ih (fun x hx => h x (List.mem_cons_of_mem d hx)) _

theorem foldl_renderNat (n : Nat) :
    (renderNat n).foldl (fun a c => a * 10 + digitVal c) 0 = n := by
  rw [renderNat_eq]
  by_cases h : n = 0
  · simp [h]
    decide
  · simp only [h, if_false]
    rw [foldl_map_digitChar _ (fun d hd =>
      Nat.digits_lt_base (by norm_num) (List.mem_reverse.mp hd)) 0]
    rw [List.foldl_reverse]
    have : (fun (y : Nat) (x : Nat) => x * 10 + y) = fun d a => a * 10 + d := rfl
    rw [this, foldr_eq_ofDigits, Nat.ofDigits_digits]

theorem parseStrChars_escape (s : List Char) :
    ∀ rest, parseStrChars (escapeChars s ++ '"' :: rest) = some (s, rest) := by
  induction s with
  | nil =>
    intro rest
    rw [escapeChars, List.nil_append, parseStrChars.eq_def]
    simp
  | cons c s ih =>
    intro rest
    by_cases h : c = '"' ∨ c = '\\'
    · rw [escapeChars, if_pos h, List.cons_append, List.cons_append,
        parseStrChars.eq_def]
      simp [h, ih rest]
    · have h2 : ¬c = '"' := fun hx => h (Or.inl hx)
      have h3 : ¬c = '\\' := fun hx => h (Or.inr hx)
      rw [escapeChars, if_neg h, List.cons_append, parseStrChars.eq_def]
      simp [h2, h3, ih rest]

theorem isDigitChar_not_special {c : Char} (h : isDigitChar c = true) :
    c ≠ 'n' ∧ c ≠ 't' ∧ c ≠ 'f' ∧ c ≠ '"' ∧ c ≠ '[' ∧ c ≠ '{' ∧ c ≠ '-' := by
  refine ⟨?_, ?_, ?_, ?_, ?_, ?_, ?_⟩ <;>
    (intro hx; subst hx; exact absurd h (by decide))

theorem parseNumIn_render (n : Int) (rest : List Char)
    (hr : notDigitStart rest) :
    parseNumIn (render (.jnum n) ++ rest) = some (.jnum n, rest) := by
  by_cases hn : n < 0
  · have h1 : render (.jnum n) = '-' :: renderNat n.natAbs := by
      simp [render, hn]
    obtain ⟨c0, t0, hc0, hd0⟩ := renderNat_cons n.natAbs
    have hscan : scanDigits 0 (renderNat n.natAbs ++ rest) = (n.natAbs, rest) := by
      rw [scanDigits_append _ 0 rest (renderNat_all_digits _) hr, foldl_renderNat]
    rw [h1, List.cons_append, parseNumIn]
    have hhead : headIsDigit (renderNat n.natAbs ++ rest) = true := by
      rw [hc0, List.cons_append, headIsDigit, hd0]
    simp only [if_pos rfl, hhead, if_true, hscan, reduceIte]
    have : -((n.natAbs : Nat) : Int) = n := by omega
    rw [this]
  · have h1 : render (.jnum n) = renderNat n.toNat := by
      simp [render, hn]
    obtain ⟨c0, t0, hc0, hd0⟩ := renderNat_cons n.toNat
    have hscan : scanDigits 0 (renderNat n.toNat ++ rest) = (n.toNat, rest) := by
      rw [scanDigits_append _ 0 rest (renderNat_all_digits _) hr, foldl_renderNat]
    obtain ⟨-, -, -, -, -, -, hm⟩ := isDigitChar_not_special hd0
    rw [h1, hc0, List.cons_append, parseNumIn]
    rw [← List.cons_append, ← hc0]
    simp only [if_neg hm, hd0, if_true, hscan, reduceIte]
    have : ((n.toNat : Nat) : Int) = n := by omega
    rw [this]

theorem render_cons (v : Jval) :
    ∃ c t, render v = c :: t ∧ c ≠ ']' ∧ c ≠ '}' := by
  cases v with
  | jnull => exact ⟨'n', ['u', 'l', 'l'], by simp [render], by decide, by decide⟩
  | jbool b =>
    cases b with
    | true =>
      exact ⟨'t', ['r', 'u', 'e'], by simp [render], by decide, by decide⟩
    | false =>
      exact ⟨'f', ['a', 'l', 's', 'e'], by simp [render], by decide, by decide⟩
  | jnum n =>
    by_cases hn : n < 0
    · exact ⟨'-', renderNat n.natAbs, by simp [render, hn], by decide, by decide⟩
    · obtain ⟨c0, t0, hc0, hd0⟩ := renderNat_cons n.toNat
      refine ⟨c0, t0, by simp [render, hn, hc0], ?_, ?_⟩ <;>
        (intro hx; subst hx; exact absurd hd0 (by decide))
  | jstr s =>
    exact ⟨'"', escapeChars s ++ ['"'], by simp [render], by decide, by decide⟩
  | jarr l =>
    cases l with
    | nil => exact ⟨'[', [']'], by simp [render], by decide, by decide⟩
    | cons v l =>
      exact ⟨'[', renderElems v l ++ [']'], by simp [render], by decide,
        by decide⟩
  | jobj l =>
    cases l with
    | nil => exact ⟨'{', ['}'], by simp [render], by decide, by decide⟩
    | cons f l =>
      exact ⟨'{', renderFields f l ++ ['}'], by simp [render], by decide,
        by decide⟩

theorem renderElems_cons (v : Jval) (l : List Jval) :
    ∃ c t, renderElems v l = c :: t ∧ c ≠ ']' ∧ c ≠ '}' := by
  obtain ⟨c, t, hv, h1, h2⟩ := render_cons v
  cases l with
  | nil => exact ⟨c, t, by simp [renderElems, hv], h1, h2⟩
  | cons w l =>
    exact ⟨c, t ++ ',' :: renderElems w l,
      by simp [renderElems, hv, List.cons_append], h1, h2⟩

theorem renderFields_cons (k : List Char) (w : Jval)
    (l : List (List Char × Jval)) :
    ∃ t, renderFields (k, w) l = '"' :: t := by
  cases l with
  | nil => exact ⟨escapeChars k ++ '"' :: ':' :: render w, by simp [renderFields]⟩
  | cons g l =>
    exact ⟨(escapeChars k ++ '"' :: ':' :: render w) ++ ',' :: renderFields g l,
      by simp [renderFields, List.cons_append]⟩

theorem notDigitStart_of_isDelim {rest : List Char} (h : isDelim rest) :
    notDigitStart rest := by
  cases rest with
  | nil => trivial
  | cons c t =>
    simp only [isDelim] at h
    simp only [notDigitStart]
    rcases h with h | h | h <;> (subst h; decide)

theorem one_le_jweight (v : Jval) : 1 ≤ jweight v := by
  cases v with
  | jarr l => cases l <;> simp [jweight]
  | jobj l => cases l <;> simp [jweight]
  | jnull => simp [jweight]
  | jbool b => simp [jweight]
  | jnum n => simp [jweight]
  | jstr s => simp [jweight]

theorem one_le_jweightElems (v : Jval) (l : List Jval) :
    1 ≤ jweightElems v l := by
  cases l <;> simp [jweightElems]

theorem one_le_jweightFields (k : List Char) (w : Jval)
    (l : List (List Char × Jval)) : 1 ≤ jweightFields (k, w) l := by
  cases l <;> simp [jweightFields]

theorem parse_render_all : ∀ fuel : Nat,
    (∀ v rest, jweight v ≤ fuel → isDelim rest →
      parseVal fuel (render v ++ rest) = some (v, rest)) ∧
    (∀ v l rest, jweightElems v l ≤ fuel →
      parseElems fuel (renderElems v l ++ ']' :: rest) = some (v :: l, rest)) ∧
    (∀ k w l rest, jweightFields (k, w) l ≤ fuel →
      parseFields fuel (renderFields (k, w) l ++ '}' :: rest) =
        some ((k, w) :: l, rest)) := by
  intro fuel
  induction fuel with
  | zero =>
    refine ⟨?_, ?_, ?_⟩
    · intro v rest hw _
      exact absurd hw (by have := one_le_jweight v; omega)
    · intro v l rest hw
      exact absurd hw (by have := one_le_jweightElems v l; omega)
    · intro k w l rest hw
      exact absurd hw (by have := one_le_jweightFields k w l; omega)
  | succ fuel ih =>
    obtain ⟨ihv, ihe, ihf⟩ := ih
    refine ⟨?_, ?_, ?_⟩
    · intro v rest hw hdl
      cases v with
      | jnull =>
        rw [show render .jnull = ['n', 'u', 'l', 'l'] from by simp [render]]
        simp only [List.cons_append, List.nil_append]
        rw [parseVal]
        simp [dropLit]
      | jbool b =>
        cases b with
        | true =>
          rw [show render (.jbool true) = ['t', 'r', 'u', 'e'] from by
            simp [render]]
          simp only [List.cons_append, List.nil_append]
          rw [parseVal]
          simp [dropLit]
        | false =>
          rw [show render (.jbool false) = ['f', 'a', 'l', 's', 'e'] from by
            simp [render]]
          simp only [List.cons_append, List.nil_append]
          rw [parseVal]
          simp [dropLit]
      | jnum n =>
        have hnum := parseNumIn_render n rest (notDigitStart_of_isDelim hdl)
        by_cases hn : n < 0
        · have h1 : render (.jnum n) = '-' :: renderNat n.natAbs := by
            simp [render, hn]
          rw [h1, List.cons_append, parseVal,
            if_neg (show ¬('-' : Char) = 'n' by decide),
            if_neg (show ¬('-' : Char) = 't' by decide),
            if_neg (show ¬('-' : Char) = 'f' by decide),
            if_neg (show ¬('-' : Char) = '"' by decide),
            if_neg (show ¬('-' : Char) = '[' by decide),
            if_neg (show ¬('-' : Char) = '{' by decide)]
          rw [← List.cons_append, ← h1, hnum]
        · have h1 : render (.jnum n) = renderNat n.toNat := by
            simp [render, hn]
          obtain ⟨c1, t1, hc1, hd1⟩ := renderNat_cons n.toNat
          obtain ⟨hq1, hq2, hq3, hq4, hq5, hq6, hq7⟩ := isDigitChar_not_special hd1
          rw [h1, hc1, List.cons_append, parseVal]
          simp only [if_neg hq1, if_neg hq2, if_neg hq3, if_neg hq4,
            if_neg hq5, if_neg hq6]
          rw [← List.cons_append, ← hc1, ← h1, hnum]
      | jstr s =>
        rw [show render (.jstr s) = '"' :: (escapeChars s ++ ['"']) from by
          simp [render]]
        simp only [List.cons_append, List.append_assoc, List.singleton_append]
        rw [parseVal]
        simp [parseStrChars_escape s rest]
      | jarr l =>
        cases l with
        | nil =>
          rw [show render (.jarr []) = ['[', ']'] from by simp [render]]
          simp only [List.cons_append, List.nil_append]
          rw [parseVal]
          simp
        | cons v l =>
          have hwl : jweightElems v l ≤ fuel := by
            have : jweight (.jarr (v :: l)) = jweightElems v l + 1 := by
              simp [jweight]
            omega
          obtain ⟨c1, t1, he1, hne1, hne2⟩ := renderElems_cons v l
          rw [show render (.jarr (v :: l)) = '[' :: (renderElems v l ++ [']'])
            from by simp [render]]
          simp only [List.cons_append, List.append_assoc, List.singleton_append]
          rw [parseVal]
          have hhd2 : ¬(renderElems v l).head? = some ']' := by
            rw [he1]
            simp [hne1]
          have hnn : ¬renderElems v l = [] := by
            rw [he1]
            simp
          simp [hhd2, hnn, ihe v l rest hwl]
      | jobj l =>
        cases l with
        | nil =>
          rw [show render (.jobj []) = ['{', '}'] from by simp [render]]
          simp only [List.cons_append, List.nil_append]
          rw [parseVal]
          simp
        | cons f l =>
          obtain ⟨k, w⟩ := f
          have hwl : jweightFields (k, w) l ≤ fuel := by
            have : jweight (.jobj ((k, w) :: l)) = jweightFields (k, w) l + 1 := by
              simp [jweight]
            omega
          obtain ⟨t1, he1⟩ := renderFields_cons k w l
          rw [show render (.jobj ((k, w) :: l)) =
            '{' :: (renderFields (k, w) l ++ ['}']) from by simp [render]]
          simp only [List.cons_append, List.append_assoc, List.singleton_append]
          rw [parseVal]
          have hhd2 : ¬(renderFields (k, w) l).head? = some '}' := by
            rw [he1]
            simp
          have hnn : ¬renderFields (k, w) l = [] := by
            rw [he1]
            simp
          simp [hhd2, hnn, ihf k w l rest hwl]
    · intro v l rest hw
      cases l with
      | nil =>
        have hwv : jweight v ≤ fuel := by
          have : jweightElems v [] = jweight v + 1 := by simp [jweightElems]
          omega
        rw [show renderElems v [] = render v from by simp [renderElems],
          parseElems, ihv v (']' :: rest) hwv (by simp [isDelim])]
        simp
      | cons w l =>
        have heq : jweightElems v (w :: l) =
            max (jweight v) (jweightElems w l) + 1 := by simp [jweightElems]
        have hwv : jweight v ≤ fuel := by omega
        have hwl : jweightElems w l ≤ fuel := by omega
        rw [show renderElems v (w :: l) = render v ++ ',' :: renderElems w l
          from by simp [renderElems]]
        simp only [List.append_assoc, List.cons_append]
        rw [parseElems, ihv v (',' :: (renderElems w l ++ ']' :: rest)) hwv
          (by simp [isDelim])]
        simp [ihe w l rest hwl]
    · intro k w l rest hw
      cases l with
      | nil =>
        have hwv : jweight w ≤ fuel := by
          have : jweightFields (k, w) [] = jweight w + 1 := by
            simp [jweightFields]
          omega
        rw [show renderFields (k, w) [] =
          '"' :: (escapeChars k ++ '"' :: ':' :: render w) from by
          simp [renderFields]]
        simp only [List.cons_append, List.append_assoc]
        rw [parseFields]
        simp only [reduceIte]
        rw [parseStrChars_escape k (':' :: (render w ++ '}' :: rest))]
        simp [ihv w ('}' :: rest) hwv (by simp [isDelim])]
      | cons g l =>
        have heq : jweightFields (k, w) (g :: l) =
            max (jweight w) (jweightFields g l) + 1 := by
          simp [jweightFields]
        have hwv : jweight w ≤ fuel := by omega
        obtain ⟨k2, w2⟩ := g
        have hwl : jweightFields (k2, w2) l ≤ fuel := by
          rw [heq] at hw
          omega
        rw [show renderFields (k, w) ((k2, w2) :: l) =
          ('"' :: (escapeChars k ++ '"' :: ':' :: render w)) ++
            ',' :: renderFields (k2, w2) l from by simp [renderFields]]
        simp only [List.cons_append, List.append_assoc]
        rw [parseFields]
        simp only [reduceIte]
        rw [parseStrChars_escape k
          (':' :: (render w ++ ',' :: (renderFields (k2, w2) l ++ '}' :: rest)))]
        simp [ihv w (',' :: (renderFields (k2, w2) l ++ '}' :: rest)) hwv
          (by simp [isDelim]), ihf k2 w2 l rest hwl]

theorem jweight_le_len : ∀ bound : Nat,
    (∀ v, jweight v ≤ bound → jweight v ≤ (render v).length + 1) ∧
    (∀ v l, jweightElems v l ≤ bound →
      jweightElems v l ≤ (renderElems v l).length + 2) ∧
    (∀ k w l, jweightFields (k, w) l ≤ bound →
      jweightFields (k, w) l ≤ (renderFields (k, w) l).length + 2) := by
  intro bound
  induction bound with
  | zero =>
    refine ⟨?_, ?_, ?_⟩
    · intro v hw
      exact absurd hw (by have := one_le_jweight v; omega)
    · intro v l hw
      exact absurd hw (by have := one_le_jweightElems v l; omega)
    · intro k w l hw
      exact absurd hw (by have := one_le_jweightFields k w l; omega)
  | succ bound ih =>
    obtain ⟨ihv, ihe, ihf⟩ := ih
    refine ⟨?_, ?_, ?_⟩
    · intro v hw
      cases v with
      | jnull => simp [jweight]
      | jbool b => simp [jweight]
      | jnum n => simp [jweight]
      | jstr s => simp [jweight]
      | jarr l =>
        cases l with
        | nil => simp [jweight]
        | cons v l =>
          have h1 : jweight (.jarr (v :: l)) = jweightElems v l + 1 := by
            simp [jweight]
          have h2 := ihe v l (by omega)
          have h3 : (render (.jarr (v :: l))).length =
              (renderElems v l).length + 2 := by
            simp [render]
          omega
      | jobj l =>
        cases l with
        | nil => simp [jweight]
        | cons f l =>
          obtain ⟨k, w⟩ := f
          have h1 : jweight (.jobj ((k, w) :: l)) =
              jweightFields (k, w) l + 1 := by
            simp [jweight]
          have h2 := ihf k w l (by omega)
          have h3 : (render (.jobj ((k, w) :: l))).length =
              (renderFields (k, w) l).length + 2 := by
            simp [render]
          omega
    · intro v l hw
      cases l with
      | nil =>
        have h1 : jweightElems v [] = jweight v + 1 := by simp [jweightElems]
        have h2 := ihv v (by omega)
        have h3 : (renderElems v []).length = (render v).length := by
          simp [renderElems]
        omega
      | cons w l =>
        have h1 : jweightElems v (w :: l) =
            max (jweight v) (jweightElems w l) + 1 := by
          simp [jweightElems]
        have h2 := ihv v (by rw [h1] at hw; omega)
        have h3 := ihe w l (by rw [h1] at hw; omega)
        have h4 : (renderElems v (w :: l)).length =
            (render v).length + (renderElems w l).length + 1 := by
          simp [renderElems]
          omega
        omega
    · intro k w l hw
      cases l with
      | nil =>
        have h1 : jweightFields (k, w) [] = jweight w + 1 := by
          simp [jweightFields]
        have h2 := ihv w (by omega)
        have h3 : (renderFields (k, w) []).length =
            (escapeChars k).length + (render w).length + 3 := by
          simp [renderFields]
          omega
        omega
      | cons g l =>
        obtain ⟨k2, w2⟩ := g
        have h1 : jweightFields (k, w) ((k2, w2) :: l) =
            max (jweight w) (jweightFields (k2, w2) l) + 1 := by
          simp [jweightFields]
        have h2 := ihv w (by rw [h1] at hw; omega)
        have h3 := ihf k2 w2 l (by rw [h1] at hw; omega)
        have h4 : (renderFields (k, w) ((k2, w2) :: l)).length =
            (escapeChars k).length + (render w).length +
              (renderFields (k2, w2) l).length + 4 := by
          simp [renderFields]
          omega
        omega

/-- The JSON parser is a left inverse of the renderer. -/
theorem parseJson_render (v : Jval) : parseJson (render v) = some v := by
  have hwle := ((jweight_le_len (jweight v)).1 v (le_refl _))
  have h1 := (parse_render_all ((render v).length + 1)).1 v []
    (by omega) (by simp [isDelim])
  rw [List.append_nil] at h1
  unfold parseJson
  rw [h1]

/-! ## Claim C5: server-suggested waits are used and capped -/

/-- C5: whenever a positive server-suggested wait is present (as
parsed from a `Retry-After` header), the wait computed by
`waitBackoff` equals `min(suggestedWait, maxWait)`; in particular a
`Retry-After` of `"3600"` (seconds) with `maxWait = 100ms` yields a
wait of `100ms`, not `3600s`. -/
theorem claim5_retry_after_capped :
    (∀ (retryWaitMin retryWaitMax suggested : Int) (attempt : Nat)
      (jitterDraw : Int → Int), 0 < suggested →
      computeWait retryWaitMin retryWaitMax attempt suggested jitterDraw =
        min suggested retryWaitMax) ∧
    parseRetryAfter 0 (.raw ['3', '6', '0', '0']) = 3600000000000 ∧
    (∀ (retryWaitMin : Int) (attempt : Nat) (jitterDraw : Int → Int),
      computeWait retryWaitMin 100000000 attempt
        (parseRetryAfter 0 (.raw ['3', '6', '0', '0'])) jitterDraw =
        100000000) := by
  have hval : parseRetryAfter 0 (.raw ['3', '6', '0', '0']) = 3600000000000 := rfl
  refine ⟨?_, hval, ?_⟩
  · intro minW maxW s attempt jd hs
    rw [computeWait, if_pos hs]
  · intro minW attempt jd
    rw [hval, computeWait, if_pos (by norm_num)]
    norm_num

/-- C5 witness: a concrete suggested wait of `7` with `maxWait = 100`
waits exactly `7`. -/
theorem claim5_witness : computeWait 1 100 2 7 (fun _ => 0) = 7 := by
  rw [claim5_retry_after_capped.1 1 100 7 2 (fun _ => 0) (by norm_num)]
  norm_num

/-! ## Claim C7: an HTTP-date in the past -/

/-- C7 counterexample: a `Retry-After` HTTP-date lying in the past
(timestamp `500`, clock `1000`) yields a server-suggested wait of `0`,
after which `waitBackoff` does NOT wait zero: it falls back to
exponential backoff, here `100ms` for attempt 1 with
`minWait = maxWait = 100ms` and a zero jitter draw — the claim's
"zero wait before the next attempt" is violated. -/
theorem claim7_counterexample :
    parseRetryAfter 1000 (.httpDate 500) = 0 ∧
    computeWait 100000000 100000000 1 (parseRetryAfter 1000 (.httpDate 500))
      (fun _ => 0) = 100000000 ∧
    (100000000 : Int) ≠ 0 := by
  refine ⟨rfl, ?_, by norm_num⟩
  rfl

/-- C7 amended: a `Retry-After` HTTP-date lying in the past yields no
server-suggested wait (`parseRetryAfter` returns `0`), and the wait
before the next attempt is then the computed exponential backoff, not
a zero wait. -/
theorem claim7_past_date_fallback (now t : Int) (h : t ≤ now)
    (retryWaitMin retryWaitMax : Int) (attempt : Nat)
    (jitterDraw : Int → Int) :
    parseRetryAfter now (.httpDate t) = 0 ∧
    computeWait retryWaitMin retryWaitMax attempt
      (parseRetryAfter now (.httpDate t)) jitterDraw =
      computeWait retryWaitMin retryWaitMax attempt 0 jitterDraw := by
  have h0 : parseRetryAfter now (.httpDate t) = 0 := by
    simp only [parseRetryAfter]
    rw [if_neg (by omega)]
  exact ⟨h0, by rw [h0]⟩

/-- C7 witness at the counterexample's inputs. -/
theorem claim7_witness :
    parseRetryAfter 1000 (.httpDate 500) = 0 ∧
    computeWait 100000000 100000000 1 (parseRetryAfter 1000 (.httpDate 500))
      (fun _ => 0) =
      computeWait 100000000 100000000 1 0 (fun _ => 0) :=
  claim7_past_date_fallback 1000 500 (by norm_num) 100000000 100000000 1
    (fun _ => 0)

/-! ## Claim C4: signature payload orderings and amount normalization -/

/-- C4: IDR payment callback/status verification digests
`id ++ amount(2dp) ++ transactionID ++ status ++ secret`, and IDR
payout callback verification digests
`payoutID ++ accountNumber ++ amount(2dp) ++ transactionID ++ secret`;
in both the amount entering the digest is exactly the re-parsed,
re-formatted two-decimal form (`"10000"`, `"10000.0"` and `"10000.00"`
all become `"10000.00"`), so an unformatted amount never enters a
digest. -/
theorem claim4_signature_payloads
    (gen : List Char → List Char)
    (secret id acct amount txn sig fa : List Char) (status : Int)
    (hfa : formatAmount2dp amount = some fa)
    (hid : id ≠ []) (hacct : acct ≠ []) (hamt : amount ≠ [])
    (htxn : txn ≠ []) (hsig : sig ≠ []) :
    paymentVerifySignature gen secret id amount txn status sig =
      (if gen (id ++ fa ++ txn ++ renderInt status ++ secret) = sig
        then .ok else .invalidSignature) ∧
    payoutVerifyCallbackSignature gen secret id acct amount txn sig =
      (if gen (id ++ acct ++ fa ++ txn ++ secret) = sig
        then .ok else .invalidSignature) ∧
    formatAmount2dp ['1', '0', '0', '0', '0'] =
      some ['1', '0', '0', '0', '0', '.', '0', '0'] ∧
    formatAmount2dp ['1', '0', '0', '0', '0', '.', '0'] =
      some ['1', '0', '0', '0', '0', '.', '0', '0'] ∧
    formatAmount2dp ['1', '0', '0', '0', '0', '.', '0', '0'] =
      some ['1', '0', '0', '0', '0', '.', '0', '0'] := by
  refine ⟨?_, ?_, rfl, rfl, rfl⟩
  · simp only [paymentVerifySignature, if_neg hid, if_neg hamt, if_neg htxn,
      if_neg hsig, hfa]
  · simp only [payoutVerifyCallbackSignature, if_neg hid, if_neg hacct,
      if_neg hamt, if_neg htxn, if_neg hsig, hfa]

/-- C4 witness: payment verification at concrete fields, with the
digest modelled as the identity function to expose the payload. -/
theorem claim4_witness :
    paymentVerifySignature (fun s => s) ['k'] ['p']
        ['1', '0', '0', '0', '0'] ['t'] 1 ['x'] =
      (if (fun (s : List Char) => s)
          (['p'] ++ ['1', '0', '0', '0', '0', '.', '0', '0'] ++ ['t'] ++
            renderInt 1 ++ ['k']) = ['x']
        then .ok else .invalidSignature) :=
  (claim4_signature_payloads (fun s => s) ['k'] ['p'] ['a']
    ['1', '0', '0', '0', '0'] ['t'] ['x']
    ['1', '0', '0', '0', '0', '.', '0', '0'] 1 rfl (by decide) (by decide)
    (by decide) (by decide) (by decide)).1

/-! ## Claim C9: callback source-IP verification -/

/-- C9: with an empty whitelist `VerifyCallbackIP` returns nil; with a
non-empty whitelist a candidate whose host part is not a valid address
gets `ErrInvalidIPAddress`, and a valid one gets nil exactly when it
matches a whitelisted individual IP or CIDR range, and
`ErrIPNotWhitelisted` otherwise. -/
theorem claim9_ip_verification (entries : List (List Char))
    (ipStr : List Char) :
    (entries = [] → VerifyCallbackIP entries ipStr = .ok) ∧
    (entries ≠ [] → parseIPv4 (stripPort ipStr) = none →
      VerifyCallbackIP entries ipStr = .invalidIPAddress) ∧
    (entries ≠ [] → ∀ ip, parseIPv4 (stripPort ipStr) = some ip →
      VerifyCallbackIP entries ipStr =
        (if (parseIPWhitelist entries).2.any (fun w => w = ip) ||
            (parseIPWhitelist entries).1.any (fun n => ipNetContains n ip)
          then .ok else .ipNotWhitelisted)) := by
  refine ⟨?_, ?_, ?_⟩
  · intro h
    simp [VerifyCallbackIP, h]
  · intro h hp
    simp [VerifyCallbackIP, h, hp]
  · intro h ip hp
    have hw : IsIPWhitelisted entries ipStr =
        ((parseIPWhitelist entries).2.any (fun w => w = ip) ||
          (parseIPWhitelist entries).1.any (fun n => ipNetContains n ip)) := by
      simp [IsIPWhitelisted, h, hp]
    rcases hb : (parseIPWhitelist entries).2.any (fun w => w = ip) ||
        (parseIPWhitelist entries).1.any (fun n => ipNetContains n ip) with _ | _
    · simp [VerifyCallbackIP, h, hp, hw, hb]
    · simp [VerifyCallbackIP, h, hp, hw, hb]

/-- C9 witness: whitelist `["10.0.0.0/8"]`; `10.2.3.4` is accepted,
`11.2.3.4` is rejected as not whitelisted, `bad` as invalid, and the
empty whitelist accepts `bad`. -/
theorem claim9_witness :
    VerifyCallbackIP [['1', '0', '.', '0', '.', '0', '.', '0', '/', '8']]
        ['1', '0', '.', '2', '.', '3', '.', '4'] = .ok ∧
    VerifyCallbackIP [['1', '0', '.', '0', '.', '0', '.', '0', '/', '8']]
        ['1', '1', '.', '2', '.', '3', '.', '4'] = .ipNotWhitelisted ∧
    VerifyCallbackIP [['1', '0', '.', '0', '.', '0', '.', '0', '/', '8']]
        ['b', 'a', 'd'] = .invalidIPAddress ∧
    VerifyCallbackIP [] ['b', 'a', 'd'] = .ok := by
  refine ⟨?_, ?_, ?_, ?_⟩
  · rw [(claim9_ip_verification
      [['1', '0', '.', '0', '.', '0', '.', '0', '/', '8']]
      ['1', '0', '.', '2', '.', '3', '.', '4']).2.2 (by decide)
      167904004 rfl]
    rfl
  · rw [(claim9_ip_verification
      [['1', '0', '.', '0', '.', '0', '.', '0', '/', '8']]
      ['1', '1', '.', '2', '.', '3', '.', '4']).2.2 (by decide)
      184681220 rfl]
    rfl
  · exact (claim9_ip_verification
      [['1', '0', '.', '0', '.', '0', '.', '0', '/', '8']]
      ['b', 'a', 'd']).2.1 (by decide) rfl
  · exact (claim9_ip_verification [] ['b', 'a', 'd']).1 rfl

/-! ## Claim C10: unparseable whitelist entries activate a dead filter -/

theorem parseIPWhitelist_unparseable (entries : List (List Char))
    (hbad : ∀ e ∈ entries, parseCIDRv4 e = none ∧ parseIPv4 e = none) :
    parseIPWhitelist entries = ([], []) := by
  induction entries with
  | nil => rfl
  | cons e rest ih =>
    have he := hbad e (List.mem_cons_self e rest)
    have hr := ih (fun x hx => hbad x (List.mem_cons_of_mem e hx))
    simp [parseIPWhitelist, he.1, he.2, hr]

/-- C10: whitelist entries that parse as neither an IP nor a CIDR are
silently dropped, while the raw entry list still counts as a non-empty
whitelist; a client configured only with such entries therefore
whitelists nothing — `IsIPWhitelisted` is false and `VerifyCallbackIP`
is never nil, for every candidate. -/
theorem claim10_dead_whitelist (entries : List (List Char))
    (hne : entries ≠ [])
    (hbad : ∀ e ∈ entries, parseCIDRv4 e = none ∧ parseIPv4 e = none) :
    ∀ candidate, IsIPWhitelisted entries candidate = false ∧
      VerifyCallbackIP entries candidate ≠ .ok := by
  intro candidate
  have hparsed := parseIPWhitelist_unparseable entries hbad
  have hwl : IsIPWhitelisted entries candidate = false := by
    rw [IsIPWhitelisted, if_neg hne]
    rcases hp : parseIPv4 (stripPort candidate) with _ | ip
    · simp [hp]
    · simp [hp, hparsed]
  refine ⟨hwl, ?_⟩
  rw [VerifyCallbackIP, if_neg hne]
  rcases hp : parseIPv4 (stripPort candidate) with _ | ip
  · simp [hp]
  · simp [hp, hwl]

/-- C10 witness: the whitelist `["foo"]` is non-empty yet matches
nothing; `1.2.3.4` is well-formed but rejected. -/
theorem claim10_witness :
    IsIPWhitelisted [['f', 'o', 'o']] ['1', '.', '2', '.', '3', '.', '4'] =
        false ∧
    VerifyCallbackIP [['f', 'o', 'o']] ['1', '.', '2', '.', '3', '.', '4'] ≠
        .ok :=
  claim10_dead_whitelist [['f', 'o', 'o']] (by decide)
    (by intro e he; simp at he; subst he; exact ⟨rfl, rfl⟩)
    ['1', '.', '2', '.', '3', '.', '4']

/-! ## Claim C1: the attempt budget -/

theorem execLoop_attempts_le (outcomes : Nat → RespResult) :
    ∀ budget attempt : Nat,
      attemptsUsed (execLoop outcomes budget attempt) ≤
        attempt + budget + 1 := by
  intro budget
  induction budget with
  | zero =>
    intro attempt
    rw [execLoop]
    rcases h : (outcomes attempt).err with _ | e
    · simp [h, attemptsUsed]
    · simp [h, attemptsUsed]
  | succ b ih =>
    intro attempt
    rw [execLoop]
    rcases h : (outcomes attempt).err with _ | e
    · simp [h, attemptsUsed]
    · rcases hr : (outcomes attempt).retry with _ | _
      · simp [h, hr, attemptsUsed]
      · have := ih (attempt + 1)
        simp only [h, hr, if_true]
        omega

/-- C1: the executor performs at most `maxRetries + 1` attempts,
stopping early on success or on a terminal classification; on the
spec's scenario — three consecutive HTTP 500 responses followed by a
200 — `maxRetries = 3` succeeds after exactly 4 attempts, while
`maxRetries = 2` returns an error after exactly 3 attempts. -/
theorem claim1_attempt_budget :
    (∀ (outcomes : Nat → RespResult) (retries : Nat),
      attemptsUsed (executeWithRetry outcomes retries) ≤ retries + 1) ∧
    (∀ (outcomes : Nat → RespResult) (retries : Nat) (e : ErrKind),
      (outcomes 0).retry = false → (outcomes 0).err = some e →
      executeWithRetry outcomes retries = .failure 0 e) ∧
    executeWithRetry scenario500 3 = .success 4 (some ⟨200, [], none⟩) ∧
    attemptsUsed (executeWithRetry scenario500 3) = 4 ∧
    executeWithRetry scenario500 2 = .failure 2 (.apiError 500) ∧
    attemptsUsed (executeWithRetry scenario500 2) = 3 := by
  refine ⟨?_, ?_, rfl, rfl, rfl, rfl⟩
  · intro outcomes retries
    have h := execLoop_attempts_le outcomes retries 0
    rw [executeWithRetry]
    omega
  · intro outcomes retries e hr he
    rw [executeWithRetry, execLoop]
    cases retries with
    | zero => simp [he]
    | succ b => simp [he, hr]

/-- C1 witness: a terminal classification (HTTP 400) on the first
attempt ends the run immediately, even with budget left. -/
theorem claim1_witness :
    executeWithRetry (fun _ => processResponse 0 400 (.raw []) []) 5 =
      .failure 0 (.apiError 400) :=
  claim1_attempt_budget.2.1 (fun _ => processResponse 0 400 (.raw []) []) 5
    (.apiError 400) rfl rfl

/-! ## Claim C8: what the final error wraps -/

theorem execLoop_failure_spec (outcomes : Nat → RespResult) :
    ∀ (budget attempt a : Nat) (e : ErrKind),
      execLoop outcomes budget attempt = .failure a e →
      (outcomes a).err = some e ∧ attempt ≤ a ∧ a ≤ attempt + budget := by
  intro budget
  induction budget with
  | zero =>
    intro attempt a e hrun
    rw [execLoop] at hrun
    rcases h : (outcomes attempt).err with _ | e2
    · simp [h] at hrun
    · simp only [h] at hrun
      obtain ⟨rfl, rfl⟩ := ExecResult.failure.inj hrun
      exact ⟨h, le_refl _, by omega⟩
  | succ b ih =>
    intro attempt a e hrun
    rw [execLoop] at hrun
    rcases h : (outcomes attempt).err with _ | e2
    · simp [h] at hrun
    · rcases hr : (outcomes attempt).retry with _ | _
      · simp only [h, hr, Bool.false_eq_true, if_false] at hrun
        obtain ⟨rfl, rfl⟩ := ExecResult.failure.inj hrun
        exact ⟨h, le_refl _, by omega⟩
      · simp only [h, hr, if_true] at hrun
        obtain ⟨h1, h2, h3⟩ := ih (attempt + 1) a e hrun
        exact ⟨h1, by omega, by omega⟩

/-- C8 counterexample: with `maxRetries = 2` and three failed
attempts, the final error wraps the count `2` ("request failed after
2 retries"), while the total attempt count is `3` — the claim's
"wrapped with the total attempt count" does not hold. -/
theorem claim8_counterexample :
    executeWithRetry scenario500 2 = .failure 2 (.apiError 500) ∧
    attemptsUsed (executeWithRetry scenario500 2) = 3 ∧
    (2 : Nat) ≠ 3 :=
  ⟨rfl, rfl, by decide⟩

/-- C8 amended: when all attempts are exhausted without success, the
executor returns the last classified error wrapped with the number of
retries performed — one less than the total attempt count — so the
caller can still distinguish failing immediately (0 retries) from
failing after N attempts (N − 1 retries). -/
theorem claim8_exhaustion_wraps_retry_count
    (outcomes : Nat → RespResult) (retries a : Nat) (e : ErrKind)
    (h : executeWithRetry outcomes retries = .failure a e) :
    (outcomes a).err = some e ∧
    attemptsUsed (executeWithRetry outcomes retries) = a + 1 ∧
    a ≤ retries := by
  rw [executeWithRetry] at h
  obtain ⟨h1, h2, h3⟩ := execLoop_failure_spec outcomes retries 0 a e h
  refine ⟨h1, ?_, by omega⟩
  rw [executeWithRetry, h]
  rfl

/-- C8 witness at the scenario with `maxRetries = 2`. -/
theorem claim8_witness :
    (scenario500 2).err = some (.apiError 500) ∧
    attemptsUsed (executeWithRetry scenario500 2) = 2 + 1 ∧
    2 ≤ 2 :=
  claim8_exhaustion_wraps_retry_count scenario500 2 2 (.apiError 500) rfl

/-! ## Claim C2: response classification -/

/-- C2 counterexample: HTTP status 600 is not a 2xx, not 429, not 404
and not a 5xx (it exceeds 599), so the claim classifies it as
terminal; the code retries every status `≥ 500`, 600 included. -/
theorem claim2_counterexample :
    (processResponse 0 600 (.raw []) []).retry = true ∧
    ¬(500 ≤ 600 ∧ (600 : Nat) ≤ 599) ∧ (600 : Nat) ≠ 404 ∧
    (600 : Nat) ≠ 429 ∧ ¬(200 ≤ (600 : Nat) ∧ (600 : Nat) < 300) :=
  ⟨rfl, by decide, by decide, by decide, by decide⟩

/-- C2 amended: for every received HTTP response the classification
is: statuses 429, 404 and every status `≥ 500` are retryable (429
additionally carrying the parsed `Retry-After` value and classified
as rate-limited, the others as API errors with the status code);
every other non-2xx status is terminal; a 2xx with a zero-length body
is retryable; a 2xx body that fails to decode as the JSON envelope is
terminal; and a decoded envelope whose inner code is not 200 is
terminal. -/
theorem claim2_classification (now : Int) (status : Nat)
    (hdr : RetryAfterValue) (body : List Char) :
    ((status < 200 ∨ status ≥ 300) →
      (processResponse now status hdr body).retry =
        (decide (status ≥ 500) || decide (status = 404) ||
          decide (status = 429)) ∧
      (status = 429 →
        (processResponse now status hdr body).err = some .rateLimited ∧
        (processResponse now status hdr body).retryAfter =
          parseRetryAfter now hdr) ∧
      (status ≠ 429 →
        (processResponse now status hdr body).err =
          some (.apiError (status : Int)) ∧
        (processResponse now status hdr body).retryAfter = 0)) ∧
    (¬(status < 200 ∨ status ≥ 300) → body.length = 0 →
      (processResponse now status hdr body).retry = true ∧
      (processResponse now status hdr body).err = some .emptyResponse) ∧
    (¬(status < 200 ∨ status ≥ 300) → body.length ≠ 0 →
      decodeResponse body = none →
      (processResponse now status hdr body).retry = false ∧
      (processResponse now status hdr body).err = some .invalidJSON) ∧
    (∀ resp, ¬(status < 200 ∨ status ≥ 300) → body.length ≠ 0 →
      decodeResponse body = some resp → resp.code ≠ 200 →
      (processResponse now status hdr body).retry = false ∧
      (processResponse now status hdr body).err =
        some (.apiError resp.code)) ∧
    (∀ resp, ¬(status < 200 ∨ status ≥ 300) → body.length ≠ 0 →
      decodeResponse body = some resp → resp.code = 200 →
      (processResponse now status hdr body).err = none ∧
      (processResponse now status hdr body).response = some resp) := by
  refine ⟨?_, ?_, ?_, ?_, ?_⟩
  · intro hs
    by_cases h429 : status = 429
    · subst h429
      refine ⟨by simp [processResponse], fun _ => ⟨?_, ?_⟩, fun hne => absurd rfl hne⟩
      · simp [processResponse]
      · simp [processResponse]
    · refine ⟨?_, fun heq => absurd heq h429, fun _ => ⟨?_, ?_⟩⟩
      · simp [processResponse, hs, h429]
      · simp [processResponse, hs, h429]
      · simp [processResponse, hs, h429]
  · intro hs hb
    simp [processResponse, hs, hb]
  · intro hs hb hd
    simp [processResponse, hs, hb, hd]
  · intro resp hs hb hd hc
    simp [processResponse, hs, hb, hd, hc]
  · intro resp hs hb hd hc
    simp [processResponse, hs, hb, hd, hc]

/-- C2 witness: a 429 with `Retry-After: 7` is retryable, classified
rate-limited, and carries the 7-second suggested wait. -/
theorem claim2_witness :
    (processResponse 0 429 (.raw ['7']) []).err = some .rateLimited ∧
    (processResponse 0 429 (.raw ['7']) []).retryAfter = 7000000000 := by
  have h := ((claim2_classification 0 429 (.raw ['7']) []).1
    (by omega)).2.1 rfl
  exact ⟨h.1, by rw [h.2]; rfl⟩

/-! ## Claim C6: exponential backoff with jitter -/

theorem i64wrap_id {x : Int} (h1 : -(2 ^ 63) ≤ x) (h2 : x < 2 ^ 63) :
    i64wrap x = x := by
  rw [i64wrap]
  have p63 : (2 : Int) ^ 63 = 9223372036854775808 := by norm_num
  have p64 : (2 : Int) ^ 64 = 18446744073709551616 := by norm_num
  have h3 : (x + 2 ^ 63) % 2 ^ 64 = x + 2 ^ 63 :=
    Int.emod_eq_of_lt (by omega) (by omega)
  omega

theorem i64wrap_range (x : Int) :
    -(2 ^ 63) ≤ i64wrap x ∧ i64wrap x < 2 ^ 63 := by
  rw [i64wrap]
  have p63 : (2 : Int) ^ 63 = 9223372036854775808 := by norm_num
  have p64 : (2 : Int) ^ 64 = 18446744073709551616 := by norm_num
  have h1 := Int.emod_nonneg (x + 2 ^ 63)
    (show (2 : Int) ^ 64 ≠ 0 by norm_num)
  have h2 := Int.emod_lt_of_pos (x + 2 ^ 63)
    (show (0 : Int) < 2 ^ 64 by norm_num)
  omega

/-- C6 counterexample: at retry attempt `n = 65` with
`minWait = 1ns`, `maxWait = 100ns`, the Go expression
`minWait * (1 << (attempt-1))` shifts `1` out of the 64-bit word, so
the computed wait is `0` — while the claim's formula
`base = min(minWait * 2^(n-1), maxWait)` gives `base = 100` and a wait
of `base + jitter ≥ 100` for every jitter draw. -/
theorem claim6_counterexample :
    computeWait 1 100 65 0 (fun _ => 0) = 0 ∧
    min ((1 : Int) * 2 ^ (65 - 1)) 100 = 100 ∧
    ((0 : Int) = min ((1 : Int) * 2 ^ (65 - 1)) 100 + (0 : Int) → False) := by
  refine ⟨?_, by norm_num, by norm_num⟩
  rfl

/-- C6 amended: for every retry attempt `n ≥ 1` with no
server-suggested wait and `0 ≤ minWait ≤ maxWait`, as long as
`minWait * 2^(n-1)` does not overflow a 64-bit duration (and
`maxWait ≤ 2^62`, so that `1.25 * maxWait` cannot overflow either),
the computed wait equals `base + jitter` with
`base = min(minWait * 2^(n-1), maxWait)` and `jitter` the uniform draw
from `[0, base/4)` (zero when that interval is empty); with or without
overflow, for every draw the effective wait never exceeds
`maxWait * 1.25`; and the initial attempt (attempt 0) never waits. -/
theorem claim6_backoff_formula (retryWaitMin retryWaitMax : Int) (n : Nat)
    (jitterDraw : Int → Int) (outcomes : Nat → RespResult)
    (_hattempt : 1 ≤ n) (hmin0 : 0 ≤ retryWaitMin)
    (hminmax : retryWaitMin ≤ retryWaitMax) (hmax : retryWaitMax ≤ 2 ^ 62)
    (hjd : ∀ m, 0 < m → 0 ≤ jitterDraw m ∧ jitterDraw m < m) :
    (retryWaitMin * 2 ^ (n - 1) < 2 ^ 63 →
      ∃ jitter, 0 ≤ jitter ∧
        4 * jitter ≤ min (retryWaitMin * 2 ^ (n - 1)) retryWaitMax ∧
        computeWait retryWaitMin retryWaitMax n 0 jitterDraw =
          min (retryWaitMin * 2 ^ (n - 1)) retryWaitMax + jitter) ∧
    4 * effectiveWait (computeWait retryWaitMin retryWaitMax n 0 jitterDraw) ≤
      5 * retryWaitMax ∧
    waitBeforeAttempt retryWaitMin retryWaitMax jitterDraw outcomes 0 = 0 := by
  have p60 : (2 : Int) ^ 60 = 1152921504606846976 := by norm_num
  have p62 : (2 : Int) ^ 62 = 4611686018427387904 := by norm_num
  have p63 : (2 : Int) ^ 63 = 9223372036854775808 := by norm_num
  have hmax0 : 0 ≤ retryWaitMax := le_trans hmin0 hminmax
  have hwr := i64wrap_range (retryWaitMin * goShl1 (n - 1))
  set base := min (i64wrap (retryWaitMin * goShl1 (n - 1))) retryWaitMax
    with hbasedef
  have hcw : computeWait retryWaitMin retryWaitMax n 0 jitterDraw =
      i64wrap (base +
        (if goQuot base 4 > 0 then jitterDraw (goQuot base 4) else 0)) := by
    rw [computeWait, if_neg (lt_irrefl 0)]
  have hbmax : base ≤ retryWaitMax := min_le_right _ _
  have hblo : -(2 ^ 63) ≤ base := le_min hwr.1 (by omega)
  refine ⟨?_, ?_, rfl⟩
  · intro hov
    have hprod0 : 0 ≤ retryWaitMin * 2 ^ (n - 1) :=
      mul_nonneg hmin0 (by positivity)
    have hshl : i64wrap (retryWaitMin * goShl1 (n - 1)) =
        retryWaitMin * 2 ^ (n - 1) := by
      by_cases hm0 : retryWaitMin = 0
      · subst hm0
        simp only [zero_mul]
        exact i64wrap_id (by omega) (by omega)
      · have hm1 : 1 ≤ retryWaitMin := by omega
        have hp : (2 : Int) ^ (n - 1) ≤ retryWaitMin * 2 ^ (n - 1) :=
          le_mul_of_one_le_left (by positivity) hm1
        have hn63 : n - 1 < 63 := by
          by_contra hc
          push_neg at hc
          have : (2 : Int) ^ 63 ≤ 2 ^ (n - 1) :=
            pow_le_pow_right₀ (by norm_num) hc
          omega
        have hgo : goShl1 (n - 1) = 2 ^ (n - 1) := by
          rw [goShl1]
          have h0p : (0 : Int) ≤ 2 ^ (n - 1) := by positivity
          exact i64wrap_id (by omega) (by omega)
        rw [hgo]
        exact i64wrap_id (by omega) hov
    have hbase : base = min (retryWaitMin * 2 ^ (n - 1)) retryWaitMax := by
      rw [hbasedef, hshl]
    have hbase0 : 0 ≤ base := by
      rw [hbase]
      exact le_min hprod0 hmax0
    have htd : goQuot base 4 = base / 4 :=
      Int.tdiv_eq_ediv hbase0 (by norm_num)
    rw [htd] at hcw
    by_cases hj : base / 4 > 0
    · obtain ⟨hj0, hjlt⟩ := hjd (base / 4) hj
      refine ⟨jitterDraw (base / 4), hj0, ?_, ?_⟩
      · rw [← hbase]
        omega
      · rw [← hbase, hcw, if_pos hj, i64wrap_id (by omega) (by omega)]
    · refine ⟨0, le_refl 0, by rw [← hbase]; omega, ?_⟩
      rw [← hbase, hcw, if_neg hj, add_zero]
      exact i64wrap_id (by omega) (by omega)
  · by_cases hbn : base < 0
    · have hjm : goQuot base 4 ≤ 0 := by
        have h1 : base.tdiv 4 = -((-base).tdiv 4) := by
          rw [← Int.neg_tdiv, neg_neg]
        have h2 : 0 ≤ (-base).tdiv 4 :=
          Int.tdiv_nonneg (by omega) (by norm_num)
        rw [goQuot]
        omega
      rw [hcw, if_neg (by omega), add_zero,
        i64wrap_id (by omega) (by omega)]
      have : effectiveWait base = 0 := by
        rw [effectiveWait]
        omega
      rw [this]
      omega
    · push_neg at hbn
      have htd : goQuot base 4 = base / 4 :=
        Int.tdiv_eq_ediv hbn (by norm_num)
      rw [htd] at hcw
      by_cases hj : base / 4 > 0
      · obtain ⟨hj0, hjlt⟩ := hjd (base / 4) hj
        rw [hcw, if_pos hj, i64wrap_id (by omega) (by omega)]
        rw [effectiveWait]
        omega
      · rw [hcw, if_neg hj, add_zero, i64wrap_id (by omega) (by omega),
          effectiveWait]
        omega

/-- C6 witness: attempt 2 with `minWait = 8`, `maxWait = 100` and the
maximal draw (`m - 1` from `[0, m)`) waits `16 + jitter`. -/
theorem claim6_witness :
    ∃ jitter, 0 ≤ jitter ∧
      4 * jitter ≤ min ((8 : Int) * 2 ^ (2 - 1)) 100 ∧
      computeWait 8 100 2 0 (fun m => m - 1) =
        min ((8 : Int) * 2 ^ (2 - 1)) 100 + jitter :=
  (claim6_backoff_formula 8 100 2 (fun m => m - 1) scenario500 (by norm_num)
    (by norm_num) (by norm_num) (by norm_num)
    (by
      intro m hm
      exact ⟨show (0 : Int) ≤ m - 1 from by omega,
        show m - 1 < m from by omega⟩)).1 (by norm_num)

/-! ## Claim C3: `ParseData` round-trips on all four envelope shapes -/

theorem render_length_ne_zero (v : Jval) : (render v).length ≠ 0 := by
  obtain ⟨c, tl, hc, -, -⟩ := render_cons v
  rw [hc]
  simp

theorem render_ne_nil (v : Jval) : render v ≠ [] := by
  obtain ⟨c, tl, hc, -, -⟩ := render_cons v
  rw [hc]
  simp

/-- C3: for a target type whose values marshal to JSON objects (and
which does not decode from a bare JSON string, as Go structs do not),
decoding the plain object encoding of a value returns that value, and
so does decoding the same encoding wrapped in a one-element array, in
a one-element array of strings, and in a JSON-encoded string — all
four shapes decode to the same result. -/
theorem claim3_parse_roundtrip {T : Type} (C : Codec T) (t : T)
    (hdec : C.dec (C.enc t) = some t)
    (hobj : ∃ fl, C.enc t = .jobj fl)
    (hstr : ∀ s, C.dec (.jstr s) = none) :
    ParseData C (render (C.enc t)) = .ok (some t) ∧
    ParseData C (render (.jarr [C.enc t])) = .ok (some t) ∧
    ParseData C (render (.jarr [.jstr (render (C.enc t))])) = .ok (some t) ∧
    ParseData C (render (.jstr (render (C.enc t)))) = .ok (some t) := by
  obtain ⟨fl, hfl⟩ := hobj
  rw [hfl] at hdec ⊢
  have hpj : parseJson (render (Jval.jobj fl)) = some (.jobj fl) :=
    parseJson_render _
  have hus : unmarshalString (render (Jval.jobj fl)) = none := by
    simp [unmarshalString, hpj]
  have hua : unmarshalArr C (render (Jval.jobj fl)) = none := by
    simp [unmarshalArr, hpj]
  have husa : unmarshalStrArr (render (Jval.jobj fl)) = none := by
    simp [unmarshalStrArr, hpj]
  have huT : unmarshalAs C (render (Jval.jobj fl)) = some t := by
    simp [unmarshalAs, hpj, hdec]
  refine ⟨?_, ?_, ?_, ?_⟩
  · simp [ParseData, render_length_ne_zero, render_ne_nil, hus, hua, husa, huT]
  · have hpjB : parseJson (render (.jarr [Jval.jobj fl])) =
        some (.jarr [Jval.jobj fl]) := parseJson_render _
    have huaB : unmarshalArr C (render (.jarr [Jval.jobj fl])) = some [t] := by
      simp [unmarshalArr, hpjB, decodeList, hdec]
    have husB : unmarshalString (render (.jarr [Jval.jobj fl])) = none := by
      simp [unmarshalString, hpjB]
    simp [ParseData, render_length_ne_zero, render_ne_nil, husB, huaB]
  · have hpjC : parseJson (render (.jarr [.jstr (render (Jval.jobj fl))])) =
        some (.jarr [.jstr (render (Jval.jobj fl))]) := parseJson_render _
    have husC : unmarshalString (render (.jarr [.jstr (render (Jval.jobj fl))])) =
        none := by
      simp [unmarshalString, hpjC]
    have huaC : unmarshalArr C (render (.jarr [.jstr (render (Jval.jobj fl))])) =
        none := by
      simp [unmarshalArr, hpjC, decodeList, hstr]
    have husaC : unmarshalStrArr
        (render (.jarr [.jstr (render (Jval.jobj fl))])) =
        some [render (Jval.jobj fl)] := by
      simp [unmarshalStrArr, hpjC, decodeStrList]
    simp [ParseData, render_length_ne_zero, render_ne_nil, husC, huaC, husaC, huT]
  · have hpjD : parseJson (render (.jstr (render (Jval.jobj fl)))) =
        some (.jstr (render (Jval.jobj fl))) := parseJson_render _
    have husD : unmarshalString (render (.jstr (render (Jval.jobj fl)))) =
        some (render (Jval.jobj fl)) := by
      simp [unmarshalString, hpjD]
    simp [ParseData, render_length_ne_zero, render_ne_nil, husD, hua, husa, huT]

/-- C3 witness: the round trip at the sample codec and value `5`. -/
theorem claim3_witness :
    ParseData natFieldCodec (render (natFieldCodec.enc 5)) =
      .ok (some 5) ∧
    ParseData natFieldCodec (render (.jarr [natFieldCodec.enc 5])) =
      .ok (some 5) ∧
    ParseData natFieldCodec
        (render (.jarr [.jstr (render (natFieldCodec.enc 5))])) =
      .ok (some 5) ∧
    ParseData natFieldCodec (render (.jstr (render (natFieldCodec.enc 5)))) =
      .ok (some 5) :=
  claim3_parse_roundtrip natFieldCodec 5 rfl ⟨[(['v'], .jnum 5)], rfl⟩
    (fun _ => rfl)

end GSPay
